import Mathlib

/-!
# Verification of the scull in-memory byte store (src/scull.rs)

Shallow embedding of the storage core of the `rust_scull` driver:
the `ScullDevData` structure with its `trim`, `follow`, `read_iter`
and `write_iter` operations.

Modelling conventions:

* A `Quantum` (`KVec<u8>`) is a `List Nat` of byte values; a `QSet`
  (`KVec<Option<Quantum>>`) is a `List (Option Quantum)`.
* The singly linked chain of `ScullQset` nodes
  (`Option<KBox<ScullQset>>`, each node owning `data : Option<QSet>` and
  `next`) is represented by `List (Option QSet)`: the node at chain
  position `i` is element `i` of the list, its `data` field is the
  element itself.  The empty chain (`self.data == None`) is `[]`.
* Fallible kernel allocation (`KBox::new`, `KVec::push`, `KVec::resize`
  with `GFP_KERNEL`) is modelled by a fuel parameter: each allocation
  event (one chain node, one whole qset array, one whole quantum
  buffer) consumes one unit of fuel and fails with `Err.enomem` when
  the fuel is exhausted.
* Because the Rust code mutates the device in place and propagates
  allocation errors with `?` after mutations have already happened,
  `write_iter` returns the updated state *in every branch*, paired with
  an `Except` result.  `read_iter` never mutates (it only takes shared
  references), so it returns its input state unchanged.
* Places where the Rust code would panic (slice indexing out of
  bounds, indexing `data_array[s_pos]`) are modelled by `Err.oob`.
-/

namespace Scull

/-- `SCULL_QUANTUM_DEFAULT` from the source. -/
def SCULL_QUANTUM_DEFAULT : Nat := 4000

/-- `SCULL_QSET_DEFAULT` from the source. -/
def SCULL_QSET_DEFAULT : Nat := 1000

/-- A quantum: one block of bytes (`KVec<u8>`). -/
abbrev Quantum := List Nat

/-- A qset: an array of optional quanta (`KVec<Option<Quantum>>`). -/
abbrev QSet := List (Option Quantum)

/-- Error results surfaced by the device operations.
`efault` is `EFAULT` (zero `itemsize`), `enomem` is a failed kernel
allocation, `oob` marks a place where the Rust code would panic on an
out-of-bounds index or slice. -/
inductive Err where
  | efault
  | enomem
  | oob
deriving DecidableEq

/-- The device state (`ScullDevData` in the source): the chain of qset
nodes, the configured quantum size, the configured qset capacity and
the logical size (high-water mark). -/
structure ScullDevData where
  data : List (Option QSet)
  quantum : Nat
  qset : Nat
  size : Nat
deriving DecidableEq

/-- `ScullDevData::new()`. -/
def ScullDevData.new : ScullDevData :=
  { data := [], quantum := SCULL_QUANTUM_DEFAULT, qset := SCULL_QSET_DEFAULT, size := 0 }

/-- `itemsize = inner.quantum * inner.qset`. -/
def itemsizeOf (s : ScullDevData) : Nat := s.quantum * s.qset

/-- `item = offset / itemsize`. -/
def itemOf (s : ScullDevData) (offset : Nat) : Nat := offset / itemsizeOf s

/-- `rest = offset % itemsize`. -/
def restOf (s : ScullDevData) (offset : Nat) : Nat := offset % itemsizeOf s

/-- `s_pos = rest / quantum`. -/
def sPosOf (s : ScullDevData) (offset : Nat) : Nat := restOf s offset / s.quantum

/-- `q_pos = rest % quantum`. -/
def qPosOf (s : ScullDevData) (offset : Nat) : Nat := restOf s offset % s.quantum

/-- The quantum stored at chain node `i`, slot `j`, if any: the lookup
chain `data.get(i) → node.data → data_array.get(j) → quantum` used by
the read path (`and_then` chain in `read_iter`). -/
def slotQuantum (c : List (Option QSet)) (i j : Nat) : Option Quantum :=
  ((c.get? i).bind id).bind fun arr => (arr.get? j).bind id

/-- `ScullDevData::trim`: drops the whole chain, resets the logical
size to `0` and the configuration to the defaults.  Pure deallocation:
it cannot fail, hence a total function into the new state. -/
def trim (s : ScullDevData) : ScullDevData :=
  { s with data := [], size := 0,
           quantum := SCULL_QUANTUM_DEFAULT, qset := SCULL_QSET_DEFAULT }

/-- The walking loop of `ScullDevData::follow`, starting at a node
whose `data` field is `d` and whose successors are `rest`: for each of
`item` remaining steps, allocate a fresh empty node (`data: None,
next: None`) when `next` is `None`, consuming one unit of fuel per
allocation.  Returns the updated chain from this node on, and either
the remaining fuel or the allocation error.  On error the nodes linked
so far remain in the returned chain, exactly as the `?` operator
leaves `self.data` mutated in the source. -/
def followFrom (fuel : Nat) (d : Option QSet) (rest : List (Option QSet)) (item : Nat) :
    List (Option QSet) × Except Err Nat :=
  match item with
  | 0 => (d :: rest, .ok fuel)
  | k + 1 =>
    match rest with
    | r :: rs =>
      let p := followFrom fuel r rs k
      (d :: p.1, p.2)
    | [] =>
      match fuel with
      | 0 => ([d], .error .enomem)
      | f + 1 =>
        let p := followFrom f none [] k
        (d :: p.1, p.2)

/-- `ScullDevData::follow(item)`: allocate the head node if the chain
is empty, then walk `item` steps allocating missing nodes.  Returns the
updated chain and either the remaining fuel (success: the node at
position `item` exists) or `Err.enomem`. -/
def follow (fuel : Nat) (chain : List (Option QSet)) (item : Nat) :
    List (Option QSet) × Except Err Nat :=
  match chain with
  | c :: cs => followFrom fuel c cs item
  | [] =>
    match fuel with
    | 0 => ([], .error .enomem)
    | f + 1 => followFrom f none [] item

/-- The qset-array allocation step of `write_iter`: if the node's
`data` is `None`, build a fresh array of `qsetCap` empty slots (the
`qset_vec.push(None)` loop), else reuse the existing array.  The fresh
array is local until linked, so on allocation failure nothing is
retained. -/
def ensureQSet (fuel qsetCap : Nat) (d : Option QSet) : Except Err (QSet × Nat) :=
  match d with
  | some a => .ok (a, fuel)
  | none =>
    match fuel with
    | 0 => .error .enomem
    | f + 1 => .ok (List.replicate qsetCap none, f)

/-- The quantum allocation step of `write_iter`: if the slot is
`None`, build a fresh zero-filled buffer of `quantumSize` bytes
(`quantum_vec.resize(quantum, 0)`), else reuse the existing buffer. -/
def ensureQuantum (fuel quantumSize : Nat) (slot : Option Quantum) : Except Err (Quantum × Nat) :=
  match slot with
  | some q => .ok (q, fuel)
  | none =>
    match fuel with
    | 0 => .error .enomem
    | f + 1 => .ok (List.replicate quantumSize 0, f)

/-- `read_iter`, with `offset = kiocb.ki_pos()` and `maxLen =
iov.len()`.  Returns the (unchanged) state and either the bytes copied
to the iov or an error.  The branch order matches the source: the EOF
check `offset >= inner.size` comes first, then the `itemsize == 0`
check.  The read-only walk plus the `and_then` lookup chain of the
source is `slotQuantum`: every `None` encountered along it makes the
source return `Ok(0)`. -/
def read_iter (s : ScullDevData) (offset maxLen : Nat) :
    ScullDevData × Except Err (List Nat) :=
  if s.size ≤ offset then (s, .ok [])
  else if itemsizeOf s = 0 then (s, .error .efault)
  else
    let count1 := if offset + maxLen > s.size then s.size - offset else maxLen
    let item := itemOf s offset
    let spos := sPosOf s offset
    let qpos := qPosOf s offset
    match slotQuantum s.data item spos with
    | none => (s, .ok [])
    | some buf =>
      let count2 := if count1 > s.quantum - qpos then s.quantum - qpos else count1
      if buf.length < qpos then (s, .error .oob)
      else
        let e := min (qpos + count2) buf.length
        (s, .ok ((buf.drop qpos).take (e - qpos)))

/-- `write_iter`, with `offset = kiocb.ki_pos()` and `src` the bytes
available in the iov (`count = iov.len() = src.length`).  Mirrors the
source statement by statement, including the order in which mutations
are committed before a later fallible or panicking step:

* `follow` may extend the chain and then fail; the extended chain is
  kept (`chain1`).
* a freshly allocated qset array is linked into the node
  (`dptr.data = Some(qset_vec)`) before the quantum allocation is
  attempted (`chain2`);
* a freshly allocated quantum is stored in the slot
  (`data_array[s_pos] = Some(quantum_vec)`) before the slice is taken
  (`chain3`);
* the slice copy writes `writeCount` bytes of `src` at `qpos`
  (`chain4`), and `copy_from_iter` returns `writeCount` since the iov
  holds `count ≥ writeCount` bytes.

When the existing qset array (resp. quantum) is reused, the `set`
rewrites the value already present, which leaves the chain equal. -/
def write_iter (fuel : Nat) (s : ScullDevData) (offset : Nat) (src : List Nat) :
    ScullDevData × Except Err Nat :=
  if itemsizeOf s = 0 then (s, .error .efault)
  else
    let count := src.length
    let item := itemOf s offset
    let spos := sPosOf s offset
    let qpos := qPosOf s offset
    match follow fuel s.data item with
    | (chain1, .error e) => ({ s with data := chain1 }, .error e)
    | (chain1, .ok fuel1) =>
      match chain1.get? item with
      | none => ({ s with data := chain1 }, .error .oob)
      | some d =>
        match ensureQSet fuel1 s.qset d with
        | .error e => ({ s with data := chain1 }, .error e)
        | .ok (arr, fuel2) =>
          let chain2 := chain1.set item (some arr)
          match arr.get? spos with
          | none => ({ s with data := chain2 }, .error .oob)
          | some slot =>
            match ensureQuantum fuel2 s.quantum slot with
            | .error e => ({ s with data := chain2 }, .error e)
            | .ok (qbuf, _fuel3) =>
              let writeCount := if count > s.quantum - qpos then s.quantum - qpos else count
              let chain3 := chain1.set item (some (arr.set spos (some qbuf)))
              if qpos + writeCount > qbuf.length then
                ({ s with data := chain3 }, .error .oob)
              else
                let newBuf :=
                  qbuf.take qpos ++ src.take writeCount ++ qbuf.drop (qpos + writeCount)
                let chain4 := chain1.set item (some (arr.set spos (some newBuf)))
                let newOffset := offset + writeCount
                let size1 := if s.size < newOffset then newOffset else s.size
                ({ s with data := chain4, size := size1 }, .ok writeCount)

/-- Well-formedness of a slot: an allocated quantum has exactly the
configured length. -/
def quantumOK (qsz : Nat) (slot : Option Quantum) : Bool :=
  match slot with
  | none => true
  | some b => b.length == qsz

/-- Well-formedness of a qset array: configured capacity, well-formed
slots. -/
def qsetOK (qsz cap : Nat) (arr : QSet) : Bool :=
  arr.length == cap && arr.all (quantumOK qsz)

/-- Well-formedness of a node's `data` field. -/
def nodeOK (qsz cap : Nat) (d : Option QSet) : Bool :=
  match d with
  | none => true
  | some arr => qsetOK qsz cap arr

/-- Well-formed device state: every allocated qset array has the
configured capacity and every allocated quantum the configured
length. -/
def WFstate (s : ScullDevData) : Prop :=
  s.data.all (nodeOK s.quantum s.qset) = true

/-! ## Lemmas about the chain walk -/

theorem followFrom_fst_append (item : Nat) :
    ∀ (fuel : Nat) (d : Option QSet) (rest : List (Option QSet)),
      ∃ k, (followFrom fuel d rest item).1 = d :: rest ++ List.replicate k none := by
  induction item with
  | zero => intro fuel d rest; exact ⟨0, by simp [followFrom]⟩
  | succ k ih =>
    intro fuel d rest
    match rest with
    | r :: rs =>
      obtain ⟨m, hm⟩ := ih fuel r rs
      exact ⟨m, by simp [followFrom, hm]⟩
    | [] =>
      match fuel with
      | 0 => exact ⟨0, by simp [followFrom]⟩
      | f + 1 =>
        obtain ⟨m, hm⟩ := ih f none []
        exact ⟨m + 1, by simp [followFrom, hm, List.replicate_succ]⟩

theorem follow_fst_append (fuel : Nat) (c : List (Option QSet)) (item : Nat) :
    ∃ k, (follow fuel c item).1 = c ++ List.replicate k none := by
  match c with
  | c0 :: cs => exact followFrom_fst_append item fuel c0 cs
  | [] =>
    match fuel with
    | 0 => exact ⟨0, by simp [follow]⟩
    | f + 1 =>
      obtain ⟨m, hm⟩ := followFrom_fst_append item f none []
      exact ⟨m + 1, by simp [follow, hm, List.replicate_succ]⟩

theorem followFrom_ok_length (item : Nat) :
    ∀ (fuel f' : Nat) (d : Option QSet) (rest : List (Option QSet)),
      (followFrom fuel d rest item).2 = .ok f' →
      (followFrom fuel d rest item).1.length = max (rest.length + 1) (item + 1) := by
  induction item with
  | zero => intro fuel f' d rest _; simp [followFrom]
  | succ k ih =>
    intro fuel f' d rest h
    match rest with
    | r :: rs =>
      simp only [followFrom] at h ⊢
      have := ih fuel f' r rs h
      simp [this]; omega
    | [] =>
      match fuel with
      | 0 => simp [followFrom] at h
      | f + 1 =>
        simp only [followFrom] at h ⊢
        have := ih f f' none [] h
        simp [this]

theorem follow_ok_length (fuel : Nat) (c : List (Option QSet)) (item f' : Nat)
    (h : (follow fuel c item).2 = .ok f') :
    (follow fuel c item).1.length = max c.length (item + 1) := by
  match c with
  | c0 :: cs =>
    have := followFrom_ok_length item fuel f' c0 cs h
    simpa [follow] using this
  | [] =>
    match fuel with
    | 0 => simp [follow] at h
    | f + 1 =>
      simp only [follow] at h ⊢
      have := followFrom_ok_length item f f' none [] h
      simp [this]

theorem slotQuantum_append_replicate (c : List (Option QSet)) (k i j : Nat) :
    slotQuantum (c ++ List.replicate k none) i j = slotQuantum c i j := by
  unfold slotQuantum
  rcases lt_or_ge i c.length with h | h
  · rw [List.get?_eq_getElem?, List.get?_eq_getElem?, List.getElem?_append_left h]
  · rw [List.get?_eq_getElem?, List.get?_eq_getElem?, List.getElem?_append_right h,
      List.getElem?_eq_none h, List.getElem?_replicate]
    split <;> simp

theorem slotQuantum_set_self (c : List (Option QSet)) (item j : Nat) (arr : QSet)
    (h : item < c.length) :
    slotQuantum (c.set item (some arr)) item j = (arr.get? j).bind id := by
  unfold slotQuantum
  rw [List.get?_eq_getElem?, List.getElem?_set_self (by simpa using h)]
  rfl

theorem slotQuantum_set_ne (c : List (Option QSet)) (item i j : Nat) (x : Option QSet)
    (h : i ≠ item) :
    slotQuantum (c.set item x) i j = slotQuantum c i j := by
  unfold slotQuantum
  rw [List.get?_eq_getElem?, List.get?_eq_getElem?, List.getElem?_set_ne (Ne.symm h)]

theorem slotQuantum_replicate_none (cap j : Nat) :
    (((List.replicate cap (none : Option Quantum)).get? j).bind id) = none := by
  rw [List.get?_eq_getElem?, List.getElem?_replicate]
  split <;> simp

theorem followFrom_error_enomem (item : Nat) :
    ∀ (fuel : Nat) (d : Option QSet) (rest : List (Option QSet)) (e : Err),
      (followFrom fuel d rest item).2 = .error e → e = .enomem := by
  induction item with
  | zero => intro fuel d rest e h; simp [followFrom] at h
  | succ k ih =>
    intro fuel d rest e h
    match rest with
    | r :: rs => exact ih fuel r rs e (by simpa [followFrom] using h)
    | [] =>
      match fuel with
      | 0 => simp [followFrom] at h; simp [h]
      | f + 1 => exact ih f none [] e (by simpa [followFrom] using h)

theorem follow_error_enomem (fuel : Nat) (c : List (Option QSet)) (item : Nat) (e : Err)
    (h : (follow fuel c item).2 = .error e) : e = .enomem := by
  match c with
  | c0 :: cs => exact followFrom_error_enomem item fuel c0 cs e h
  | [] =>
    match fuel with
    | 0 => simp [follow] at h; simp [h]
    | f + 1 => exact followFrom_error_enomem item f none [] e (by simpa [follow] using h)

theorem ensureQSet_ok (fuel cap : Nat) (d : Option QSet) (arr : QSet) (f2 : Nat)
    (h : ensureQSet fuel cap d = .ok (arr, f2)) :
    d = some arr ∨ (d = none ∧ arr = List.replicate cap none) := by
  match d with
  | some a => left; simp [ensureQSet] at h; rw [h.1]
  | none =>
    right
    match fuel with
    | 0 => simp [ensureQSet] at h
    | f + 1 => simp [ensureQSet] at h; exact ⟨rfl, h.1.symm⟩

theorem ensureQSet_error (fuel cap : Nat) (d : Option QSet) (e : Err)
    (h : ensureQSet fuel cap d = .error e) : e = .enomem := by
  match d with
  | some a => simp [ensureQSet] at h
  | none =>
    match fuel with
    | 0 => simp [ensureQSet] at h; simp [h]
    | f + 1 => simp [ensureQSet] at h

theorem ensureQuantum_ok (fuel qsz : Nat) (slot : Option Quantum) (qbuf : Quantum) (f3 : Nat)
    (h : ensureQuantum fuel qsz slot = .ok (qbuf, f3)) :
    slot = some qbuf ∨ (slot = none ∧ qbuf = List.replicate qsz 0) := by
  match slot with
  | some q => left; simp [ensureQuantum] at h; rw [h.1]
  | none =>
    right
    match fuel with
    | 0 => simp [ensureQuantum] at h
    | f + 1 => simp [ensureQuantum] at h; exact ⟨rfl, h.1.symm⟩

theorem ensureQuantum_error (fuel qsz : Nat) (slot : Option Quantum) (e : Err)
    (h : ensureQuantum fuel qsz slot = .error e) : e = .enomem := by
  match slot with
  | some q => simp [ensureQuantum] at h
  | none =>
    match fuel with
    | 0 => simp [ensureQuantum] at h; simp [h]
    | f + 1 => simp [ensureQuantum] at h

theorem ite_gt_eq_min (a b : Nat) : (if a > b then b else a) = min a b := by
  rcases le_or_lt a b with h | h
  · rw [if_neg (by omega), Nat.min_eq_left h]
  · rw [if_pos h, Nat.min_eq_right (by omega)]

theorem ite_lt_eq_max (a b : Nat) : (if a < b then b else a) = max a b := by
  rcases le_or_lt b a with h | h
  · rw [if_neg (by omega), Nat.max_eq_left h]
  · rw [if_pos h, Nat.max_eq_right (by omega)]

/-- The success branch of `write_iter`, characterised: the returned
count is `min count (quantum - q_pos)`, the configuration is
unchanged, the logical size becomes the high-water mark, the chain is
extended to exactly `max old_length (item + 1)` nodes, and the quantum
at the resolved slot is the old quantum (or a fresh zero-filled one)
with `n` bytes of the source spliced in at `q_pos`. -/
theorem write_iter_ok_spec (fuel : Nat) (s : ScullDevData) (offset : Nat) (src : List Nat)
    (s' : ScullDevData) (n : Nat)
    (h : write_iter fuel s offset src = (s', .ok n)) :
    itemsizeOf s ≠ 0 ∧
    n = min src.length (s.quantum - qPosOf s offset) ∧
    s'.quantum = s.quantum ∧ s'.qset = s.qset ∧
    s'.size = max s.size (offset + n) ∧
    s'.data.length = max s.data.length (itemOf s offset + 1) ∧
    ∃ qbuf : Quantum,
      qbuf = (slotQuantum s.data (itemOf s offset) (sPosOf s offset)).getD
               (List.replicate s.quantum 0) ∧
      qPosOf s offset + n ≤ qbuf.length ∧
      slotQuantum s'.data (itemOf s offset) (sPosOf s offset) =
        some (qbuf.take (qPosOf s offset) ++ src.take n ++
              qbuf.drop (qPosOf s offset + n)) := by
  simp only [write_iter] at h
  split at h
  · exact absurd h (by simp)
  next hsz =>
    split at h
    next chain1 e hfol => exact absurd h (by simp)
    next chain1 fuel1 hfol =>
      split at h
      next hget => exact absurd h (by simp)
      next d hget =>
        split at h
        next e hq => exact absurd h (by simp)
        next arr fuel2 hq =>
          split at h
          next hsp => exact absurd h (by simp)
          next slot hsp =>
            split at h
            next e hqm => exact absurd h (by simp)
            next qbuf fuel3 hqm =>
              rw [show (if src.length > s.quantum - qPosOf s offset then
                    s.quantum - qPosOf s offset else src.length) =
                  min src.length (s.quantum - qPosOf s offset) from
                    ite_gt_eq_min _ _] at h
              split at h
              next hov => exact absurd h (by simp)
              next hov =>
                rw [Prod.mk.injEq] at h
                obtain ⟨hs', hn⟩ := h
                rw [Except.ok.injEq] at hn
                have hitem : itemOf s offset < chain1.length := by
                  have hl := follow_ok_length fuel s.data (itemOf s offset) fuel1
                    (by rw [hfol])
                  rw [hfol] at hl
                  simp at hl
                  omega
                have hsposlt : sPosOf s offset < arr.length := by
                  have := List.get?_eq_some.mp hsp
                  exact this.choose
                have hchain1 : ∃ k, chain1 = s.data ++ List.replicate k none := by
                  obtain ⟨k, hk⟩ := follow_fst_append fuel s.data (itemOf s offset)
                  rw [hfol] at hk
                  exact ⟨k, hk⟩
                have hold : slotQuantum s.data (itemOf s offset) (sPosOf s offset) =
                    (d.bind fun a => (a.get? (sPosOf s offset)).bind id) := by
                  obtain ⟨k, hk⟩ := hchain1
                  have := slotQuantum_append_replicate s.data k
                    (itemOf s offset) (sPosOf s offset)
                  rw [← hk] at this
                  rw [← this]
                  unfold slotQuantum
                  rw [hget]
                  rfl
                refine ⟨hsz, hn.symm, ?_, ?_, ?_, ?_, ?_⟩
                · rw [← hs']
                · rw [← hs']
                · rw [← hs']
                  simp only
                  rw [hn, ite_lt_eq_max]
                · rw [← hs']
                  simp only [List.length_set]
                  have hl := follow_ok_length fuel s.data (itemOf s offset) fuel1
                    (by rw [hfol])
                  rw [hfol] at hl
                  simpa using hl
                · refine ⟨qbuf, ?_, by omega, ?_⟩
                  · rw [hold]
                    rcases ensureQSet_ok fuel1 s.qset d arr fuel2 hq with hd | ⟨hd, harr⟩
                    · rw [hd]
                      show qbuf =
                        ((arr.get? (sPosOf s offset)).bind id).getD (List.replicate s.quantum 0)
                      rw [hsp]
                      rcases ensureQuantum_ok fuel2 s.quantum slot qbuf fuel3 hqm with
                        hsl | ⟨hsl, hqb⟩
                      · rw [hsl]; rfl
                      · rw [hsl, hqb]; rfl
                    · rw [hd]
                      rcases ensureQuantum_ok fuel2 s.quantum slot qbuf fuel3 hqm with
                        hsl | ⟨hsl, hqb⟩
                      · exfalso
                        rw [harr] at hsp
                        have := slotQuantum_replicate_none s.qset (sPosOf s offset)
                        rw [hsp, hsl] at this
                        simp at this
                      · rw [hqb]; rfl
                  · rw [← hs']
                    simp only
                    rw [slotQuantum_set_self _ _ _ _ hitem, hn]
                    rw [List.get?_eq_getElem?, List.getElem?_set_self (by simpa using hsposlt)]
                    rfl

theorem slotQuantum_of_get? (c : List (Option QSet)) (i j : Nat) (d : Option QSet)
    (h : c.get? i = some d) :
    slotQuantum c i j = d.bind fun a => (a.get? j).bind id := by
  unfold slotQuantum
  rw [h]
  rfl

theorem splice_readback (A B C : List Nat) (n : Nat) (hA : A.length = n) :
    ((A ++ B ++ C).drop n).take B.length = B := by
  rw [List.append_assoc, List.drop_left' hA, List.take_left]

/-! ## Claim theorems -/

/-- C6: `trim` (the `reset` operation) always succeeds — it is a total
function with no error result — releases the whole chain, sets the
logical size to `0`, restores `quantum` and `qset` to their defaults,
and afterwards `read(0, 1)` returns empty, regardless of the prior
state. -/
theorem trim_resets_store (s : ScullDevData) :
    (trim s).data = [] ∧ (trim s).size = 0 ∧
    (trim s).quantum = SCULL_QUANTUM_DEFAULT ∧ (trim s).qset = SCULL_QSET_DEFAULT ∧
    read_iter (trim s) 0 1 = (trim s, .ok []) :=
  ⟨rfl, rfl, rfl, rfl, by simp [read_iter, trim]⟩

/-- C8: `read(offset, n)` with `offset ≥ logical_size` returns empty
and leaves the store (in particular the chain) exactly unchanged: the
result state is the input state. -/
theorem read_at_or_past_size_is_empty (s : ScullDevData) (offset n : Nat)
    (h : s.size ≤ offset) : read_iter s offset n = (s, .ok []) := by
  simp [read_iter, h]

/-- Witness for C8 at a concrete input. -/
theorem read_at_or_past_size_is_empty_witness :
    read_iter ⟨[], 4000, 1000, 0⟩ 3 5 = (⟨[], 4000, 1000, 0⟩, .ok []) :=
  read_at_or_past_size_is_empty ⟨[], 4000, 1000, 0⟩ 3 5 (by decide)

/-- C3 counterexample: with a zero `itemsize` configuration and
`offset ≥ logical_size` (here a fresh zero-size device with
`quantum = qset = 0`), `read` returns the empty end-of-stream result,
not the configuration error: the EOF check `offset >= inner.size`
comes first in the code, so the claimed order of the two checks is
wrong. -/
theorem read_eof_check_precedes_config_check :
    read_iter ⟨[], 0, 0, 0⟩ 0 1 = (⟨[], 0, 0, 0⟩, .ok []) ∧
    (Except.ok [] : Except Err (List Nat)) ≠ .error .efault := by
  exact ⟨rfl, by simp⟩

/-- C3 amended: when `itemsize = 0` *and* `offset < logical_size`,
`read` rejects with the configuration error `EFAULT`; for
`offset ≥ logical_size` the end-of-stream check fires first and `read`
returns empty even when `itemsize = 0`. -/
theorem read_config_error_below_size (s : ScullDevData) (offset n : Nat)
    (h1 : offset < s.size) (h2 : itemsizeOf s = 0) :
    read_iter s offset n = (s, .error .efault) := by
  have hns : ¬ s.size ≤ offset := by omega
  simp [read_iter, hns, h2]

/-- Witness for the amended C3 at a concrete input. -/
theorem read_config_error_below_size_witness :
    read_iter ⟨[], 0, 0, 5⟩ 0 1 = (⟨[], 0, 0, 5⟩, .error .efault) :=
  read_config_error_below_size ⟨[], 0, 0, 5⟩ 0 1 (by decide) (by decide)

/-- C5: for `offset < logical_size`, if the lookup chain fails at any
stage — the chain ends before node `item_index`, that node's qset is
absent, or the slot at `slot_index` is absent (all three are exactly
`slotQuantum … = none`) — `read` returns empty: a never-written
quantum reads as no data, not as a zero-filled region. -/
theorem read_hole_is_empty (s : ScullDevData) (offset maxLen : Nat)
    (h1 : offset < s.size) (h2 : itemsizeOf s ≠ 0)
    (h3 : slotQuantum s.data (itemOf s offset) (sPosOf s offset) = none) :
    read_iter s offset maxLen = (s, .ok []) := by
  have hns : ¬ s.size ≤ offset := by omega
  simp [read_iter, hns, h2, h3]

/-- Witness for C5: logical size `5` but an empty chain (slot `0` of
item `0` never written), so `read(0, 1)` returns empty even though
`offset < logical_size`. -/
theorem read_hole_is_empty_witness :
    read_iter ⟨[], 1, 1, 5⟩ 0 1 = (⟨[], 1, 1, 5⟩, .ok []) :=
  read_hole_is_empty ⟨[], 1, 1, 5⟩ 0 1 (by decide) (by decide) (by decide)

/-- C7: the chain is contiguous by construction — a node exists at
position `i` only if a node exists at every position `j ≤ i` — and
`follow` extends the chain to exactly `max current_length (item + 1)`
nodes on success: one new node per step beyond the current tail, no
sparse skipping. -/
theorem chain_contiguous_follow_extends :
    (∀ (c : List (Option QSet)) (i j : Nat), j ≤ i →
      (c.get? i).isSome = true → (c.get? j).isSome = true) ∧
    (∀ (fuel : Nat) (c : List (Option QSet)) (item f' : Nat),
      (follow fuel c item).2 = .ok f' →
      (follow fuel c item).1.length = max c.length (item + 1)) := by
  constructor
  · intro c i j hji hi
    rw [List.get?_eq_getElem?] at hi ⊢
    have hi' : i < c.length := by
      by_contra hlen
      rw [List.getElem?_eq_none (by omega)] at hi
      simp at hi
    rw [List.getElem?_eq_getElem (by omega)]
    simp
  · exact follow_ok_length

/-- Witness for C7: both parts applied at concrete inputs. -/
theorem chain_contiguous_follow_extends_witness :
    (([none, none] : List (Option QSet)).get? 0).isSome = true ∧
    (follow 2 ([] : List (Option QSet)) 1).1.length = max ([] : List (Option QSet)).length 2 :=
  ⟨chain_contiguous_follow_extends.1 [none, none] 1 0 (by decide) (by decide),
   chain_contiguous_follow_extends.2 2 [] 1 0 (by rfl)⟩

/-- C4: a successful `write(offset, src)` returns exactly
`min (len src) (quantum_size - byte_index)` bytes, where
`byte_index = (offset % itemsize) % quantum_size` (`qPosOf`): one call
never writes past the end of a single quantum. -/
theorem write_count_is_min (fuel : Nat) (s : ScullDevData) (offset : Nat) (src : List Nat)
    (s' : ScullDevData) (n : Nat)
    (h : write_iter fuel s offset src = (s', .ok n)) :
    n = min src.length (s.quantum - qPosOf s offset) ∧
    ∃ qbuf : Quantum,
      slotQuantum s'.data (itemOf s offset) (sPosOf s offset) =
        some (qbuf.take (qPosOf s offset) ++ src.take n ++
              qbuf.drop (qPosOf s offset + n)) := by
  obtain ⟨_, hn, _, _, _, _, qbuf, _, _, hslot⟩ := write_iter_ok_spec fuel s offset src s' n h
  exact ⟨hn, qbuf, hslot⟩

/-- Witness for C4: writing 3 bytes at offset 1 with `quantum = 3`
returns `2 = min 3 (3 - 1)`, not 3. -/
theorem write_count_is_min_witness :
    ((2 : Nat) = min ([9, 9, 9] : List Nat).length
      ((⟨[], 3, 1, 0⟩ : ScullDevData).quantum - qPosOf ⟨[], 3, 1, 0⟩ 1)) ∧
    ∃ qbuf : Quantum,
      slotQuantum (write_iter 10 ⟨[], 3, 1, 0⟩ 1 [9, 9, 9]).1.data
        (itemOf ⟨[], 3, 1, 0⟩ 1) (sPosOf ⟨[], 3, 1, 0⟩ 1) =
        some (qbuf.take (qPosOf ⟨[], 3, 1, 0⟩ 1) ++ ([9, 9, 9] : List Nat).take 2 ++
              qbuf.drop (qPosOf ⟨[], 3, 1, 0⟩ 1 + 2)) :=
  write_count_is_min 10 ⟨[], 3, 1, 0⟩ 1 [9, 9, 9]
    (write_iter 10 ⟨[], 3, 1, 0⟩ 1 [9, 9, 9]).1 2 (by rfl)

/-- C10: a successful zero-length write returns 0, yet still allocates
every chain node up to `item_index` (the chain afterwards reaches past
`item_index`) and leaves at the resolved slot the previously stored
quantum, or a fresh zero-initialized quantum of `quantum_size` bytes
if the slot was unallocated — lazy allocation is triggered by the call
itself, not by the number of bytes transferred. -/
theorem write_empty_still_allocates (fuel : Nat) (s : ScullDevData) (offset : Nat)
    (s' : ScullDevData) (n : Nat)
    (h : write_iter fuel s offset [] = (s', .ok n)) :
    n = 0 ∧
    itemOf s offset < s'.data.length ∧
    slotQuantum s'.data (itemOf s offset) (sPosOf s offset) =
      some ((slotQuantum s.data (itemOf s offset) (sPosOf s offset)).getD
        (List.replicate s.quantum 0)) := by
  obtain ⟨hsz, hn, hq, hc, hsize, hlen, qbuf, hqb, hle, hslot⟩ :=
    write_iter_ok_spec fuel s offset [] s' n h
  have hn0 : n = 0 := by simpa using hn
  subst hn0
  refine ⟨rfl, by omega, ?_⟩
  rw [hslot, hqb]
  simp

/-- Witness for C10 at a concrete input. -/
theorem write_empty_still_allocates_witness :
    (0 : Nat) = 0 ∧
    itemOf ⟨[], 2, 2, 0⟩ 3 < (⟨[some [none, some [0, 0]]], 2, 2, 3⟩ : ScullDevData).data.length ∧
    slotQuantum [some [none, some [0, 0]]] (itemOf ⟨[], 2, 2, 0⟩ 3) (sPosOf ⟨[], 2, 2, 0⟩ 3) =
      some ((slotQuantum [] (itemOf ⟨[], 2, 2, 0⟩ 3) (sPosOf ⟨[], 2, 2, 0⟩ 3)).getD
        (List.replicate 2 0)) :=
  write_empty_still_allocates 5 ⟨[], 2, 2, 0⟩ 3 ⟨[some [none, some [0, 0]]], 2, 2, 3⟩ 0 (by rfl)

/-- C1 counterexample: on a store with `quantum_size = 2`,
`qset_capacity = 1`, writing the 2-byte sequence `[5, 6]`
(`len ≤ quantum_size`) at offset 1 succeeds but only writes 1 byte
(the write clamps at the quantum boundary), and reading
`len(bytes) = 2` bytes back at offset 1 returns `[5]`, not `[5, 6]`:
the claimed round-trip fails. -/
theorem write_read_roundtrip_fails_at_boundary :
    (write_iter 10 ⟨[], 2, 1, 0⟩ 1 [5, 6]).2 = .ok 1 ∧
    ([5, 6] : List Nat).length ≤ (2 : Nat) ∧
    (read_iter (write_iter 10 ⟨[], 2, 1, 0⟩ 1 [5, 6]).1 1 2).2 = .ok [5] ∧
    ([5] : List Nat) ≠ [5, 6] :=
  ⟨rfl, by decide, rfl, by decide⟩

/-- C1 amended: the round-trip holds whenever the bytes fit inside the
written quantum from `byte_index` on: if
`len(src) ≤ quantum_size - byte_index` and `write(offset, src)`
succeeds, then `read(offset, len(src))` on the resulting store returns
exactly `src`. -/
theorem write_read_roundtrip (fuel : Nat) (s : ScullDevData) (offset : Nat) (src : List Nat)
    (s' : ScullDevData) (n : Nat)
    (hfit : src.length ≤ s.quantum - qPosOf s offset)
    (h : write_iter fuel s offset src = (s', .ok n)) :
    read_iter s' offset src.length = (s', .ok src) := by
  obtain ⟨hsz, hn, hq, hc, hsize, hlen, qbuf, hqb, hle, hslot⟩ :=
    write_iter_ok_spec fuel s offset src s' n h
  have hn' : n = src.length := by omega
  subst hn'
  rw [List.take_length] at hslot
  have hitemsz : itemsizeOf s' = itemsizeOf s := by
    unfold itemsizeOf
    rw [hq, hc]
  have hitem : itemOf s' offset = itemOf s offset := by
    unfold itemOf
    rw [hitemsz]
  have hspos : sPosOf s' offset = sPosOf s offset := by
    unfold sPosOf restOf
    rw [hitemsz, hq]
  have hqpos : qPosOf s' offset = qPosOf s offset := by
    unfold qPosOf restOf
    rw [hitemsz, hq]
  have hqposle : qPosOf s offset ≤ qbuf.length := by omega
  have htklen : (qbuf.take (qPosOf s offset)).length = qPosOf s offset := by
    simp only [List.length_take]
    omega
  have hnewlen : (qbuf.take (qPosOf s offset) ++ src ++
      qbuf.drop (qPosOf s offset + src.length)).length = qbuf.length := by
    simp only [List.length_append, List.length_take, List.length_drop]
    omega
  by_cases hoff : s'.size ≤ offset
  · have hsrcnil : src = [] := List.eq_nil_of_length_eq_zero (by omega)
    subst hsrcnil
    simp [read_iter, hoff]
  · simp only [read_iter]
    rw [if_neg hoff, if_neg (by rw [hitemsz]; exact hsz)]
    rw [hitem, hspos, hqpos, hslot]
    have hc1 : ¬ (offset + src.length > s'.size) := by omega
    have hc2 : ¬ (src.length > s.quantum - qPosOf s offset) := by omega
    have hc3 : ¬ ((qbuf.take (qPosOf s offset) ++ src ++
        qbuf.drop (qPosOf s offset + src.length)).length < qPosOf s offset) := by
      rw [hnewlen]
      omega
    simp only [hq, if_neg hc1, if_neg hc2, if_neg hc3]
    rw [hnewlen, Nat.min_eq_left (by omega), Nat.add_sub_cancel_left,
      splice_readback _ _ _ _ htklen]

/-- Witness for the amended C1 at a concrete input. -/
theorem write_read_roundtrip_witness :
    read_iter (write_iter 10 ⟨[], 2, 1, 0⟩ 0 [7]).1 0 ([7] : List Nat).length =
      ((write_iter 10 ⟨[], 2, 1, 0⟩ 0 [7]).1, .ok [7]) :=
  write_read_roundtrip 10 ⟨[], 2, 1, 0⟩ 0 [7] (write_iter 10 ⟨[], 2, 1, 0⟩ 0 [7]).1 1
    (by decide) (by rfl)

/-- C2 counterexample: on an empty store with `quantum = qset = 1`,
writing at offset 2 (item index 2) with fuel for only one allocation
makes `follow` link one fresh node and then fail: the call returns the
allocation error but the store is *not* exactly as it was before — the
newly allocated (empty) chain node remains reachable. -/
theorem write_alloc_failure_grows_chain :
    write_iter 1 ⟨[], 1, 1, 0⟩ 2 [7] = (⟨[none], 1, 1, 0⟩, .error .enomem) ∧
    (⟨[none], 1, 1, 0⟩ : ScullDevData) ≠ ⟨[], 1, 1, 0⟩ :=
  ⟨rfl, by decide⟩

/-- C2 amended: when any allocation step inside `write` fails, the
call returns the allocation error and `logical_size` and the
configuration are unchanged, and the stored data is unchanged — every
slot holds exactly the quantum it held before (no partially filled
quantum and no partially populated qset slot becomes reachable).  The
chain may however have been extended with empty nodes, and an empty
qset array may remain linked to the target node. -/
theorem write_alloc_failure_preserves_contents (fuel : Nat) (s : ScullDevData)
    (offset : Nat) (src : List Nat) (s' : ScullDevData)
    (h : write_iter fuel s offset src = (s', .error .enomem)) :
    s'.size = s.size ∧ s'.quantum = s.quantum ∧ s'.qset = s.qset ∧
    ∀ i j, slotQuantum s'.data i j = slotQuantum s.data i j := by
  simp only [write_iter] at h
  split at h
  · exact absurd h (by simp)
  next hsz =>
    split at h
    next chain1 e hfol =>
      rw [Prod.mk.injEq] at h
      obtain ⟨hs', _⟩ := h
      obtain ⟨k, hk0⟩ := follow_fst_append fuel s.data (itemOf s offset)
      rw [hfol] at hk0
      have hk : chain1 = s.data ++ List.replicate k none := hk0
      refine ⟨by rw [← hs'], by rw [← hs'], by rw [← hs'], fun i j => ?_⟩
      rw [← hs']
      show slotQuantum chain1 i j = slotQuantum s.data i j
      rw [hk]
      exact slotQuantum_append_replicate s.data k i j
    next chain1 fuel1 hfol =>
      have hitem : itemOf s offset < chain1.length := by
        have hl := follow_ok_length fuel s.data (itemOf s offset) fuel1 (by rw [hfol])
        rw [hfol] at hl
        simp at hl
        omega
      obtain ⟨k, hk0⟩ := follow_fst_append fuel s.data (itemOf s offset)
      rw [hfol] at hk0
      have hk : chain1 = s.data ++ List.replicate k none := hk0
      split at h
      next hget => exact absurd h (by simp)
      next d hget =>
        split at h
        next e hq =>
          rw [Prod.mk.injEq] at h
          obtain ⟨hs', _⟩ := h
          refine ⟨by rw [← hs'], by rw [← hs'], by rw [← hs'], fun i j => ?_⟩
          rw [← hs']
          show slotQuantum chain1 i j = slotQuantum s.data i j
          rw [hk]
          exact slotQuantum_append_replicate s.data k i j
        next arr fuel2 hq =>
          split at h
          next hsp => exact absurd h (by simp)
          next slot hsp =>
            split at h
            next e hqm =>
              rw [Prod.mk.injEq] at h
              obtain ⟨hs', _⟩ := h
              refine ⟨by rw [← hs'], by rw [← hs'], by rw [← hs'], fun i j => ?_⟩
              rw [← hs']
              show slotQuantum (chain1.set (itemOf s offset) (some arr)) i j =
                slotQuantum s.data i j
              by_cases hij : i = itemOf s offset
              · rw [hij, slotQuantum_set_self _ _ _ _ hitem]
                rcases ensureQSet_ok fuel1 s.qset d arr fuel2 hq with hd | ⟨hd, harr⟩
                · have hv : slotQuantum chain1 (itemOf s offset) j = (arr.get? j).bind id := by
                    rw [slotQuantum_of_get? chain1 (itemOf s offset) j d hget, hd]
                    rfl
                  rw [← hv, hk]
                  exact slotQuantum_append_replicate s.data k (itemOf s offset) j
                · rw [harr, slotQuantum_replicate_none]
                  have hv : slotQuantum chain1 (itemOf s offset) j = none := by
                    rw [slotQuantum_of_get? chain1 (itemOf s offset) j d hget, hd]
                    rfl
                  rw [← hv, hk]
                  exact slotQuantum_append_replicate s.data k (itemOf s offset) j
              · rw [slotQuantum_set_ne _ _ _ _ _ hij, hk]
                exact slotQuantum_append_replicate s.data k i j
            next qbuf fuel3 hqm =>
              split at h <;> split at h <;> exact absurd h (by simp)

theorem write_iter_no_oob_aux (fuel : Nat) (s : ScullDevData) (offset : Nat) (src : List Nat)
    (s' : ScullDevData) (hq : 0 < s.quantum) (hc : 0 < s.qset) (hwf : WFstate s)
    (h : write_iter fuel s offset src = (s', .error .oob)) : False := by
  have hqpos : qPosOf s offset < s.quantum := Nat.mod_lt _ hq
  have hspos : sPosOf s offset < s.qset := by
    unfold sPosOf restOf
    rw [Nat.div_lt_iff_lt_mul hq, Nat.mul_comm s.qset s.quantum]
    exact Nat.mod_lt _ (Nat.mul_pos hq hc)
  have hwf' : s.data.all (nodeOK s.quantum s.qset) = true := hwf
  simp only [write_iter] at h
  split at h
  · exact absurd h (by simp)
  next hsz =>
    split at h
    next chain1 e hfol =>
      have he : e = .enomem :=
        follow_error_enomem fuel s.data (itemOf s offset) e (by rw [hfol])
      rw [Prod.mk.injEq] at h
      obtain ⟨_, h2⟩ := h
      rw [he] at h2
      exact absurd h2 (by simp)
    next chain1 fuel1 hfol =>
      have hitem : itemOf s offset < chain1.length := by
        have hl := follow_ok_length fuel s.data (itemOf s offset) fuel1 (by rw [hfol])
        rw [hfol] at hl
        simp at hl
        omega
      obtain ⟨k, hk0⟩ := follow_fst_append fuel s.data (itemOf s offset)
      rw [hfol] at hk0
      have hk : chain1 = s.data ++ List.replicate k none := hk0
      have hall : chain1.all (nodeOK s.quantum s.qset) = true := by
        rw [hk]
        simp only [List.all_append, hwf', List.all_replicate]
        simp [nodeOK]
      split at h
      next hget =>
        have := List.get?_eq_none.mp hget
        omega
      next d hget =>
        have hd_ok : nodeOK s.quantum s.qset d = true :=
          (List.all_eq_true.mp hall) d (List.get?_mem hget)
        split at h
        next e hq2 =>
          have he := ensureQSet_error fuel1 s.qset d e hq2
          rw [Prod.mk.injEq] at h
          obtain ⟨_, h2⟩ := h
          rw [he] at h2
          exact absurd h2 (by simp)
        next arr fuel2 hq2 =>
          have harrlen : arr.length = s.qset ∧ arr.all (quantumOK s.quantum) = true := by
            rcases ensureQSet_ok fuel1 s.qset d arr fuel2 hq2 with hd | ⟨hd, harr⟩
            · rw [hd] at hd_ok
              simp only [nodeOK, qsetOK, Bool.and_eq_true, beq_iff_eq] at hd_ok
              exact hd_ok
            · rw [harr]
              refine ⟨by simp, ?_⟩
              simp [quantumOK]
          split at h
          next hsp =>
            have := List.get?_eq_none.mp hsp
            omega
          next slot hsp =>
            have hslot_ok : quantumOK s.quantum slot = true :=
              (List.all_eq_true.mp harrlen.2) slot (List.get?_mem hsp)
            split at h
            next e hqm =>
              have he := ensureQuantum_error fuel2 s.quantum slot e hqm
              rw [Prod.mk.injEq] at h
              obtain ⟨_, h2⟩ := h
              rw [he] at h2
              exact absurd h2 (by simp)
            next qbuf fuel3 hqm =>
              have hqbuflen : qbuf.length = s.quantum := by
                rcases ensureQuantum_ok fuel2 s.quantum slot qbuf fuel3 hqm with
                  hsl | ⟨hsl, hqb⟩
                · rw [hsl] at hslot_ok
                  simpa [quantumOK] using hslot_ok
                · rw [hqb]
                  simp
              rw [show (if src.length > s.quantum - qPosOf s offset then
                    s.quantum - qPosOf s offset else src.length) =
                  min src.length (s.quantum - qPosOf s offset) from
                    ite_gt_eq_min _ _] at h
              split at h
              next hov => omega
              next hov =>
                rw [Prod.mk.injEq] at h
                obtain ⟨_, h2⟩ := h
                exact absurd h2 (by simp)

/-- C9: with a valid configuration (`quantum > 0` and `qset > 0`, as
established by the `itemsize != 0` guard) and a well-formed store,
every index and slice operation in the write path is in bounds:
`slot_index < qset_capacity`, `byte_index + write_count ≤
quantum_size`, and `write_iter` can never take one of the paths where
the Rust code would panic on an out-of-bounds index or slice (modelled
by `Err.oob`). -/
theorem write_path_in_bounds (s : ScullDevData) (offset len : Nat)
    (hq : 0 < s.quantum) (hc : 0 < s.qset) (hwf : WFstate s) :
    sPosOf s offset < s.qset ∧
    qPosOf s offset + min len (s.quantum - qPosOf s offset) ≤ s.quantum ∧
    ∀ (fuel : Nat) (src : List Nat), (write_iter fuel s offset src).2 ≠ .error .oob := by
  have hqpos : qPosOf s offset < s.quantum := Nat.mod_lt _ hq
  have hspos : sPosOf s offset < s.qset := by
    unfold sPosOf restOf
    rw [Nat.div_lt_iff_lt_mul hq, Nat.mul_comm s.qset s.quantum]
    exact Nat.mod_lt _ (Nat.mul_pos hq hc)
  refine ⟨hspos, by omega, fun fuel src hbad => ?_⟩
  exact write_iter_no_oob_aux fuel s offset src (write_iter fuel s offset src).1 hq hc hwf
    (by rw [← hbad])

/-- Witness for C9 at a concrete input. -/
theorem write_path_in_bounds_witness :
    sPosOf ⟨[], 2, 3, 0⟩ 9 < (3 : Nat) ∧
    qPosOf ⟨[], 2, 3, 0⟩ 9 + min 5 (2 - qPosOf ⟨[], 2, 3, 0⟩ 9) ≤ (2 : Nat) ∧
    ∀ (fuel : Nat) (src : List Nat),
      (write_iter fuel ⟨[], 2, 3, 0⟩ 9 src).2 ≠ .error .oob :=
  write_path_in_bounds ⟨[], 2, 3, 0⟩ 9 5 (by decide) (by decide) (by rfl)

/-- Witness for the amended C2 at a concrete input. -/
theorem write_alloc_failure_preserves_contents_witness :
    (⟨[none], 1, 1, 0⟩ : ScullDevData).size = (⟨[], 1, 1, 0⟩ : ScullDevData).size ∧
    (⟨[none], 1, 1, 0⟩ : ScullDevData).quantum = (⟨[], 1, 1, 0⟩ : ScullDevData).quantum ∧
    (⟨[none], 1, 1, 0⟩ : ScullDevData).qset = (⟨[], 1, 1, 0⟩ : ScullDevData).qset ∧
    ∀ i j, slotQuantum (⟨[none], 1, 1, 0⟩ : ScullDevData).data i j =
      slotQuantum (⟨[], 1, 1, 0⟩ : ScullDevData).data i j :=
  write_alloc_failure_preserves_contents 1 ⟨[], 1, 1, 0⟩ 2 [7] ⟨[none], 1, 1, 0⟩ (by rfl)

end Scull
